import Mathlib

/-!
Shallow embedding of the cryptotik Bittrex client (src/cryptotik/bittrex.py):
pair formatting, nonce generation, response verification, depth-limited
operations and response normalization, together with theorems settling the
specification claims about them.

Python strings are modelled as lists of characters (`Str`); Python string
methods used by the source (`lower`, `islower`, `replace` of a single
character, `split` on a single character, `in`) are embedded below.
Exceptions are modelled with `Except` / `Option`.
-/

namespace Cryptotik

/-- Python strings, modelled as lists of characters. -/
abbrev Str := List Char

/-- Python s.lower(), character-wise (ASCII model). -/
def pyLower (s : Str) : Str := s.map Char.toLower

/-- Whether a character is cased in the ASCII model (Python: has upper/lower forms). -/
def casedChar (c : Char) : Bool := c.isUpper || c.isLower

/-- Python s.islower(): at least one cased character and no uppercase character. -/
def pyIsLower (s : Str) : Bool := s.any casedChar && s.all (fun c => !c.isUpper)

/-- Python s.replace(a, b) for single characters: character-wise substitution. -/
def pyReplaceChar (a b : Char) (s : Str) : Str :=
  s.map (fun c => if c = a then b else c)

/-- Python sep in s for a single-character separator. -/
def pyContainsChar (sep : Char) (s : Str) : Bool := s.any (fun c => c = sep)

/-- Python s.split(sep) for a single-character separator: splits at every
occurrence, keeping empty fields (so the result is never empty). -/
def pySplit (sep : Char) (s : Str) : List Str :=
  s.foldr
    (fun c acc =>
      if c = sep then [] :: acc
      else
        match acc with
        | [] => [[c]]
        | a :: rest => (c :: a) :: rest)
    [[]]

namespace Bittrex

/-- The venue delimiter of the Bittrex wrapper (class attribute delimiter). -/
def delimiter : Char := '-'

/-- Class attribute base_currencies of the Bittrex wrapper. -/
def base_currencies : List Str := ["btc".data, "eth".data, "usdt".data]

/-- Bittrex.format_pair: replace underscores by the delimiter, then lowercase
unless the string already satisfies islower(). -/
def format_pair (pair : Str) : Str :=
  let p := pyReplaceChar '_' delimiter pair
  if !pyIsLower p then pyLower p else p

/-- Bittrex.get_nonce, one call: given the current unix time t and the stored
counter s (0 when never set, matching getattr(self, _nonce, 0)), return the
issued nonce; the stored counter is updated to the same value. -/
def get_nonce (t s : Nat) : Nat :=
  let nonce := if s ≠ 0 then s + 1 else s
  max t nonce

/-- The sequence of nonces issued by repeated calls on one instance, given
the unix time t i observed at call i (0-indexed); the stored counter starts
unset (0) and after each call equals the value just returned. -/
def nonceSeq (t : Nat → Nat) : Nat → Nat
  | 0 => get_nonce (t 0) 0
  | i + 1 => get_nonce (t (i + 1)) (nonceSeq t i)

end Bittrex

/-- Errors raised by BittrexNormalized.format_pair (and the implicit
ValueError from unpacking split results into two variables). -/
inductive PairError
  | invalidDelimiter
  | invalidBaseCurrency
  | unpackValueError
  deriving DecidableEq, Repr

namespace BittrexNormalized

/-- BittrexNormalized.format_pair: lowercase, require the delimiter, unpack
quote and base (a split into anything but exactly two parts raises ValueError),
require the base to be a known base currency, and emit base-delimiter-quote. -/
def format_pair (market_pair : Str) : Except PairError Str :=
  let p := pyLower market_pair
  if !pyContainsChar '-' p then .error .invalidDelimiter
  else
    match pySplit '-' p with
    | [quote, base] =>
        if base ∈ Bittrex.base_currencies then .ok (base ++ '-' :: quote)
        else .error .invalidBaseCurrency
    | _ => .error .unpackValueError

end BittrexNormalized

/-- Python values relevant to the response envelope: the success field may be
any JSON value, and `is True` holds only for the boolean True. -/
inductive PyVal
  | bool (b : Bool)
  | int (n : Int)
  | str (s : Str)
  | null
  deriving DecidableEq, Repr

/-- A parsed response body: the envelope fields success and message plus the
result payload (of arbitrary shape α). -/
structure RespBody (α : Type) where
  success : PyVal
  message : Str
  result : α
  deriving DecidableEq, Repr

namespace Bittrex

/-- Bittrex._verify_response: raise APIError(message) unless success is the
boolean True (Python: if not response.json()[...] is True). -/
def verify_response {α : Type} (r : RespBody α) : Except Str Unit :=
  if ¬ (r.success = PyVal.bool true) then Except.error r.message
  else Except.ok ()

/-- Bittrex.api after transport: verify the body, then return it. -/
def api {α : Type} (r : RespBody α) : Except Str (RespBody α) :=
  match verify_response r with
  | Except.error m => Except.error m
  | Except.ok _ => Except.ok r

/-- Python l[i:] (slice from index i to the end, i an arbitrary int):
negative indices count from the end and are clamped at 0. -/
def pySliceFrom {α : Type} (l : List α) (i : Int) : List α :=
  if i < 0 then l.drop (max 0 (l.length + i)).toNat
  else l.drop (min i l.length).toNat

/-- Bittrex.get_market_trade_history, with the network modelled as the list
of trades the venue would return: the second component counts the network
calls made. depth > 200 raises ValueError before any call; otherwise the
result is the Python slice [-depth:] of the venue list. -/
def get_market_trade_history {τ : Type} (depth : Int) (venue : List τ) :
    Except Str (List τ) × Nat :=
  if depth > 200 then
    (Except.error "Bittrex API allows maximum history of last 200 trades.".data, 0)
  else (Except.ok (pySliceFrom venue (-depth)), 1)

/-- One price level of the venue order book: fields Rate and Quantity. -/
structure OrderLevel (α : Type) where
  Rate : α
  Quantity : α
  deriving DecidableEq, Repr

/-- The venue order book payload: the buy and sell arrays. -/
structure OrderBookRaw (α : Type) where
  buy : List (OrderLevel α)
  sell : List (OrderLevel α)
  deriving DecidableEq, Repr

/-- Bittrex.get_market_orders, with the network modelled as the order book
the venue would return: the second component counts the network calls made.
depth > 50 raises ValueError before any call. -/
def get_market_orders {α : Type} (depth : Int) (venue : OrderBookRaw α) :
    Except Str (OrderBookRaw α) × Nat :=
  if depth > 50 then
    (Except.error "Bittrex API allows maximum depth of last 50 offers.".data, 0)
  else (Except.ok venue, 1)

/-- A balance record returned by the venue (fields Currency and Balance). -/
structure BalanceEntry where
  Currency : Str
  Balance : ℚ
  deriving DecidableEq, Repr

/-- Bittrex.get_balances, with the network modelled as the balance list the
venue would return: the list comprehension keeping entries with Balance > 0. -/
def get_balances : List BalanceEntry → List BalanceEntry
  | [] => []
  | b :: rest =>
      if b.Balance > 0 then b :: get_balances rest else get_balances rest

end Bittrex

/-- A venue trade record as consumed by the normalized trade history
(fields TimeStamp, OrderType, Price, Quantity, Id). -/
structure TradeRec where
  TimeStamp : Str
  OrderType : Str
  Price : Str
  Quantity : Str
  Id : Int
  deriving DecidableEq, Repr

/-- A normalized trade record (δ is the datetime type produced by parsing). -/
structure NormTrade (δ : Type) where
  timestamp : δ
  is_sale : Bool
  rate : Str
  amount : Str
  trade_id : Int
  deriving DecidableEq, Repr

namespace BittrexNormalized

/-- BittrexNormalized._iso_string_to_datetime, parameterized by the two
datetime.strptime parsers (millisecond format, then second format): the
second is attempted only when the first fails. -/
def iso_string_to_datetime {δ : Type} (parseMs parseSec : Str → Option δ)
    (ts : Str) : Option δ :=
  match parseMs ts with
  | some d => some d
  | none => parseSec ts

/-- BittrexNormalized.get_market_trade_history over the upstream list: each
record is mapped in order; an unparseable timestamp propagates as a failure
of the whole call (the Python exception). sale is the external is_sale
collaborator classifying OrderType. -/
def get_market_trade_history {δ : Type} (sale : Str → Bool)
    (parseMs parseSec : Str → Option δ) :
    List TradeRec → Option (List (NormTrade δ))
  | [] => some []
  | d :: rest =>
      match iso_string_to_datetime parseMs parseSec d.TimeStamp with
      | none => none
      | some t =>
          match get_market_trade_history sale parseMs parseSec rest with
          | none => none
          | some l =>
              some ({ timestamp := t, is_sale := sale d.OrderType,
                      rate := d.Price, amount := d.Quantity,
                      trade_id := d.Id } :: l)

/-- The normalized order book: bids and asks as [price, quantity] pairs. -/
structure NormBook (α : Type) where
  bids : List (List α)
  asks : List (List α)
  deriving DecidableEq, Repr

/-- BittrexNormalized.get_market_orders applied to the venue order book
payload: each buy level becomes the two-element list [Rate, Quantity] in
bids, each sell level likewise in asks. -/
def get_market_orders {α : Type} (orders : Bittrex.OrderBookRaw α) :
    NormBook α :=
  { bids := orders.buy.map (fun i => [i.Rate, i.Quantity]),
    asks := orders.sell.map (fun i => [i.Rate, i.Quantity]) }

end BittrexNormalized

end Cryptotik

namespace Cryptotik

/-- Characters that are not ASCII uppercase are fixed by Char.toLower. -/
theorem toLower_eq_self_of_not_isUpper (c : Char) (h : c.isUpper = false) :
    c.toLower = c := by
  unfold Char.toLower
  rw [if_neg]
  intro hcond
  obtain ⟨h65, h90⟩ := hcond
  simp only [Char.isUpper, Bool.and_eq_false_iff, decide_eq_false_iff_not] at h
  simp only [Char.toNat] at h65 h90
  rcases h with h | h
  · exact h (show (65 : UInt32) ≤ c.val from h65)
  · exact h (show c.val ≤ (90 : UInt32) from h90)

/-- A string satisfying the islower() model is fixed by lowercasing. -/
theorem pyLower_eq_self_of_pyIsLower (s : Str) (h : pyIsLower s = true) :
    pyLower s = s := by
  unfold pyIsLower at h
  rw [Bool.and_eq_true] at h
  obtain ⟨-, hall⟩ := h
  unfold pyLower
  induction s with
  | nil => rfl
  | cons c cs ih =>
      simp only [List.all_cons, Bool.and_eq_true] at hall
      obtain ⟨hc, hcs⟩ := hall
      simp only [List.map_cons, ih hcs, List.cons.injEq, and_true]
      exact toLower_eq_self_of_not_isUpper c (by
        cases hup : c.isUpper
        · rfl
        · rw [hup] at hc; simp at hc)

/-- Bittrex.format_pair always returns the underscore-replaced, lowercased
input, in both branches of the islower() test. -/
theorem format_pair_eq_lower_replace (s : Str) :
    Bittrex.format_pair s = pyLower (pyReplaceChar '_' Bittrex.delimiter s) := by
  unfold Bittrex.format_pair
  cases h : pyIsLower (pyReplaceChar '_' Bittrex.delimiter s)
  · simp [h]
  · simp [h, pyLower_eq_self_of_pyIsLower _ h]

/-- Lowering an ASCII uppercase character adds 32 to its code point. -/
theorem toLower_toNat_of_isUpper (c : Char) (h : c.isUpper = true) :
    (c.toLower).toNat = c.toNat + 32 := by
  simp only [Char.isUpper, Bool.and_eq_true, decide_eq_true_eq] at h
  obtain ⟨h65, h90⟩ := h
  have h65n : 65 ≤ c.toNat := h65
  have h90n : c.toNat ≤ 90 := h90
  simp only [Char.toNat] at h65n h90n
  unfold Char.toLower
  rw [if_pos ⟨h65n, h90n⟩]
  simp only [Char.toNat, Char.ofNat]
  rw [dif_pos]
  · rfl
  · exact Or.inl (by omega)

/-- An ASCII uppercase character has code point between 65 and 90. -/
theorem isUpper_toNat_bounds (c : Char) (h : c.isUpper = true) :
    65 ≤ c.toNat ∧ c.toNat ≤ 90 := by
  simp only [Char.isUpper, Bool.and_eq_true, decide_eq_true_eq] at h
  exact ⟨h.1, h.2⟩

/-- The result of Char.toLower is never ASCII uppercase. -/
theorem toLower_isUpper_false (c : Char) : (c.toLower).isUpper = false := by
  cases h : c.isUpper
  · rw [toLower_eq_self_of_not_isUpper c h]; exact h
  · have ht := toLower_toNat_of_isUpper c h
    have hb := isUpper_toNat_bounds c h
    simp only [Char.isUpper, Bool.and_eq_false_iff, decide_eq_false_iff_not]
    right
    intro hle
    have : (c.toLower).toNat ≤ 90 := hle
    omega

/-- Char.toLower never produces an underscore from a non-underscore. -/
theorem toLower_ne_underscore (c : Char) (h : c ≠ '_') : c.toLower ≠ '_' := by
  cases hu : c.isUpper
  · rw [toLower_eq_self_of_not_isUpper c hu]; exact h
  · intro he
    have ht := toLower_toNat_of_isUpper c hu
    have hb := isUpper_toNat_bounds c hu
    rw [he] at ht
    have : ('_').toNat = 95 := by decide
    omega

/-- Char.toLower is idempotent. -/
theorem toLower_toLower (c : Char) : (c.toLower).toLower = c.toLower :=
  toLower_eq_self_of_not_isUpper _ (toLower_isUpper_false c)

/-- The per-character action of Bittrex.format_pair is idempotent. -/
theorem formatChar_idem (c : Char) :
    Char.toLower (if Char.toLower (if c = '_' then '-' else c) = '_' then '-'
      else Char.toLower (if c = '_' then '-' else c)) =
    Char.toLower (if c = '_' then '-' else c) := by
  have hd : (if c = '_' then '-' else c) ≠ '_' := by
    split
    · decide
    · assumption
  rw [if_neg (toLower_ne_underscore _ hd), toLower_toLower]

/-- iso_string_to_datetime takes the millisecond parse when it succeeds. -/
theorem iso_first (δ : Type) (parseMs parseSec : Str → Option δ) (ts : Str)
    (v : δ) (h : parseMs ts = some v) :
    BittrexNormalized.iso_string_to_datetime parseMs parseSec ts = some v := by
  simp [BittrexNormalized.iso_string_to_datetime, h]

/-- iso_string_to_datetime tries the second-precision parse only when the
millisecond parse fails. -/
theorem iso_fallback (δ : Type) (parseMs parseSec : Str → Option δ) (ts : Str)
    (h : parseMs ts = none) :
    BittrexNormalized.iso_string_to_datetime parseMs parseSec ts = parseSec ts := by
  simp [BittrexNormalized.iso_string_to_datetime, h]

/-- Claim C1: on one instance with positive unix times, repeated get_nonce
calls return a non-decreasing sequence; the first call returns the current
time, each later call returns max(current time, previous value + 1), and any
call whose observed time does not exceed the previous value returns exactly
the previous value plus one. -/
theorem nonce_sequence_spec (t : Nat → Nat) (ht : ∀ i, 1 ≤ t i) :
    (∀ i, Bittrex.nonceSeq t i ≤ Bittrex.nonceSeq t (i + 1)) ∧
    Bittrex.nonceSeq t 0 = t 0 ∧
    (∀ i, Bittrex.nonceSeq t (i + 1) = max (t (i + 1)) (Bittrex.nonceSeq t i + 1)) ∧
    (∀ i, t (i + 1) ≤ Bittrex.nonceSeq t i →
      Bittrex.nonceSeq t (i + 1) = Bittrex.nonceSeq t i + 1) := by
  have h0 : Bittrex.nonceSeq t 0 = t 0 := by
    simp [Bittrex.nonceSeq, Bittrex.get_nonce]
  have hpos : ∀ i, 1 ≤ Bittrex.nonceSeq t i := by
    intro i
    induction i with
    | zero => rw [h0]; exact ht 0
    | succ n ih =>
        show 1 ≤ Bittrex.get_nonce (t (n + 1)) (Bittrex.nonceSeq t n)
        unfold Bittrex.get_nonce
        rw [if_pos (by omega : Bittrex.nonceSeq t n ≠ 0)]
        exact le_trans (by omega) (le_max_right (t (n + 1)) _)
  have hstep : ∀ i,
      Bittrex.nonceSeq t (i + 1) = max (t (i + 1)) (Bittrex.nonceSeq t i + 1) := by
    intro i
    show Bittrex.get_nonce (t (i + 1)) (Bittrex.nonceSeq t i) = _
    unfold Bittrex.get_nonce
    rw [if_pos (by have := hpos i; omega : Bittrex.nonceSeq t i ≠ 0)]
  refine ⟨fun i => ?_, h0, hstep, fun i h => ?_⟩
  · rw [hstep i]
    exact le_trans (Nat.le_succ _) (le_max_right _ _)
  · rw [hstep i]
    exact Nat.max_eq_right (by omega)

/-- Witness for C1 at the constant time sequence 5. -/
theorem nonce_sequence_spec_witness :
    Bittrex.nonceSeq (fun _ => 5) 0 ≤ Bittrex.nonceSeq (fun _ => 5) 1 :=
  (nonce_sequence_spec (fun _ => 5) (fun _ => by norm_num)).1 0

/-- Counterexample for C2: the input btc-eth-x contains the delimiter and no
reading of its base part is a known base currency, yet the call fails with
the ValueError of tuple unpacking, not with InvalidBaseCurrencyError. -/
theorem format_pair_normalized_multi_delim_cex :
    pyContainsChar '-' (pyLower "btc-eth-x".data) = true ∧
    "eth-x".data ∉ Bittrex.base_currencies ∧
    "x".data ∉ Bittrex.base_currencies ∧
    BittrexNormalized.format_pair "btc-eth-x".data =
      Except.error PairError.unpackValueError ∧
    PairError.unpackValueError ≠ PairError.invalidBaseCurrency := by
  refine ⟨by decide, by decide, by decide, rfl, by decide⟩

/-- Claim C2 (amended): if the lowercased input lacks the delimiter, the call
fails with InvalidDelimiterError; if it contains the delimiter and splits into
exactly two parts whose base is not a known base currency, it fails with
InvalidBaseCurrencyError; if it contains the delimiter but splits into any
other number of parts, tuple unpacking fails with a ValueError. All of this
is pure validation with no network call. -/
theorem format_pair_normalized_validation (s : Str) :
    (pyContainsChar '-' (pyLower s) = false →
      BittrexNormalized.format_pair s = Except.error PairError.invalidDelimiter) ∧
    (∀ q b, pyContainsChar '-' (pyLower s) = true →
      pySplit '-' (pyLower s) = [q, b] → b ∉ Bittrex.base_currencies →
      BittrexNormalized.format_pair s = Except.error PairError.invalidBaseCurrency) ∧
    (∀ parts, pyContainsChar '-' (pyLower s) = true →
      pySplit '-' (pyLower s) = parts → parts.length ≠ 2 →
      BittrexNormalized.format_pair s = Except.error PairError.unpackValueError) := by
  refine ⟨?_, ?_, ?_⟩
  · intro h
    simp [BittrexNormalized.format_pair, h]
  · intro q b hc hsplit hb
    simp [BittrexNormalized.format_pair, hc, hsplit, hb]
  · intro parts hc hsplit hlen
    rcases parts with _ | ⟨a, _ | ⟨b2, _ | ⟨c2, rest⟩⟩⟩
    · simp [BittrexNormalized.format_pair, hc, hsplit]
    · simp [BittrexNormalized.format_pair, hc, hsplit]
    · simp at hlen
    · simp [BittrexNormalized.format_pair, hc, hsplit]

/-- Witness for C2 (amended) at the delimiter-free input btcusd. -/
theorem format_pair_normalized_validation_witness :
    BittrexNormalized.format_pair "btcusd".data =
      Except.error PairError.invalidDelimiter :=
  (format_pair_normalized_validation "btcusd".data).1 (by decide)

/-- Counterexample for C3: BittrexNormalized.format_pair is not idempotent;
it maps eth-btc to btc-eth, and applied to that output it returns eth-btc,
not btc-eth. -/
theorem format_pair_normalized_not_idempotent_cex :
    BittrexNormalized.format_pair "eth-btc".data = Except.ok "btc-eth".data ∧
    BittrexNormalized.format_pair "btc-eth".data = Except.ok "eth-btc".data ∧
    "eth-btc".data ≠ "btc-eth".data :=
  ⟨rfl, rfl, by decide⟩

/-- Claim C3 (amended): the non-normalized Bittrex.format_pair maps every
string (in either delimiter convention) to the lowercased string with
underscores replaced by the venue delimiter, it is idempotent, and it maps
btc_eth to btc-eth. (The BittrexNormalized variant instead swaps quote and
base, so applying it twice returns the original input, and it rejects
underscore-delimited strings.) -/
theorem format_pair_lower_join_idempotent (s : Str) :
    Bittrex.format_pair s = pyLower (pyReplaceChar '_' Bittrex.delimiter s) ∧
    Bittrex.format_pair (Bittrex.format_pair s) = Bittrex.format_pair s ∧
    Bittrex.format_pair "btc_eth".data = "btc-eth".data := by
  refine ⟨format_pair_eq_lower_replace s, ?_, by decide⟩
  rw [format_pair_eq_lower_replace, format_pair_eq_lower_replace]
  simp only [pyLower, pyReplaceChar, Bittrex.delimiter, List.map_map]
  apply List.map_congr_left
  intro c _
  exact formatChar_idem c

/-- Claim C4: trade history requests with depth above 200 and order-book
requests with depth above 50 fail with the documented ValueError while
making zero network calls. -/
theorem depth_limit_rejects_before_network (τ α : Type) (dT dO : Int)
    (venueT : List τ) (venueO : Bittrex.OrderBookRaw α)
    (hT : dT > 200) (hO : dO > 50) :
    Bittrex.get_market_trade_history dT venueT =
      (Except.error "Bittrex API allows maximum history of last 200 trades.".data, 0) ∧
    Bittrex.get_market_orders dO venueO =
      (Except.error "Bittrex API allows maximum depth of last 50 offers.".data, 0) := by
  constructor
  · simp [Bittrex.get_market_trade_history, hT]
  · simp [Bittrex.get_market_orders, hO]

/-- Witness for C4 at depths 300 and 51. -/
theorem depth_limit_rejects_before_network_witness :
    Bittrex.get_market_trade_history 300 ([] : List Nat) =
      (Except.error "Bittrex API allows maximum history of last 200 trades.".data, 0) ∧
    Bittrex.get_market_orders 51 (⟨[], []⟩ : Bittrex.OrderBookRaw Nat) =
      (Except.error "Bittrex API allows maximum depth of last 50 offers.".data, 0) :=
  depth_limit_rejects_before_network Nat Nat 300 51 [] ⟨[], []⟩
    (by norm_num) (by norm_num)

/-- Claim C5: normalized trade history maps each venue record in order to
the record whose is_sale is the external classification of OrderType, whose
rate, amount and trade_id copy Price, Quantity and Id, and whose timestamp
comes from the millisecond-precision parse when it succeeds and from the
second-precision parse only when the first fails. -/
theorem trade_history_normalization_spec (δ : Type) (sale : Str → Bool)
    (parseMs parseSec : Str → Option δ)
    (upstream : List TradeRec) (l : List (NormTrade δ))
    (h : BittrexNormalized.get_market_trade_history sale parseMs parseSec upstream =
      some l) :
    l.length = upstream.length ∧
    ∀ i (hi : i < upstream.length) (hl : i < l.length),
      (l.get ⟨i, hl⟩).is_sale = sale ((upstream.get ⟨i, hi⟩).OrderType) ∧
      (l.get ⟨i, hl⟩).rate = (upstream.get ⟨i, hi⟩).Price ∧
      (l.get ⟨i, hl⟩).amount = (upstream.get ⟨i, hi⟩).Quantity ∧
      (l.get ⟨i, hl⟩).trade_id = (upstream.get ⟨i, hi⟩).Id ∧
      BittrexNormalized.iso_string_to_datetime parseMs parseSec
        ((upstream.get ⟨i, hi⟩).TimeStamp) = some ((l.get ⟨i, hl⟩).timestamp) ∧
      (∀ v, parseMs ((upstream.get ⟨i, hi⟩).TimeStamp) = some v →
        (l.get ⟨i, hl⟩).timestamp = v) ∧
      (parseMs ((upstream.get ⟨i, hi⟩).TimeStamp) = none →
        parseSec ((upstream.get ⟨i, hi⟩).TimeStamp) =
          some ((l.get ⟨i, hl⟩).timestamp)) := by
  induction upstream generalizing l with
  | nil =>
      simp [BittrexNormalized.get_market_trade_history] at h
      subst h
      exact ⟨rfl, fun i hi => absurd hi (by simp)⟩
  | cons d rest ih =>
      rw [BittrexNormalized.get_market_trade_history] at h
      cases hms : BittrexNormalized.iso_string_to_datetime parseMs parseSec
          d.TimeStamp with
      | none => rw [hms] at h; exact absurd h (by simp)
      | some tv =>
          rw [hms] at h
          cases hrec : BittrexNormalized.get_market_trade_history sale parseMs
              parseSec rest with
          | none => rw [hrec] at h; exact absurd h (by simp)
          | some l0 =>
              rw [hrec] at h
              simp only [Option.some.injEq] at h
              subst h
              obtain ⟨ihlen, ihidx⟩ := ih l0 hrec
              constructor
              · simp [ihlen]
              · intro i hi hl
                cases i with
                | zero =>
                    refine ⟨rfl, rfl, rfl, rfl, hms, ?_, ?_⟩
                    · intro v hv
                      have hfst := iso_first δ parseMs parseSec d.TimeStamp v hv
                      rw [hfst] at hms
                      exact (Option.some.injEq _ _ ▸ hms).symm
                    · intro hnone
                      have hfb := iso_fallback δ parseMs parseSec d.TimeStamp hnone
                      rw [hfb] at hms
                      exact hms
                | succ n =>
                    exact ihidx n (by simpa using hi) (by simpa using hl)

/-- Witness for C5 on a one-record list with concrete parsers. -/
theorem trade_history_normalization_spec_witness :
    ([⟨1, false, "1".data, "2".data, 42⟩] : List (NormTrade Nat)).length =
      ([⟨"t".data, "BUY".data, "1".data, "2".data, 42⟩] : List TradeRec).length :=
  (trade_history_normalization_spec Nat (fun _ => false) (fun _ => some 1)
    (fun _ => none) [⟨"t".data, "BUY".data, "1".data, "2".data, 42⟩]
    [⟨1, false, "1".data, "2".data, 42⟩] rfl).1

/-- Claim C6: normalized order books keep the venue ordering of the buy and
sell arrays and turn each level into the two-element list price then
quantity, buys becoming bids and sells becoming asks. -/
theorem order_book_normalization_spec (α : Type) (ob : Bittrex.OrderBookRaw α) :
    (BittrexNormalized.get_market_orders ob).bids.length = ob.buy.length ∧
    (BittrexNormalized.get_market_orders ob).asks.length = ob.sell.length ∧
    (∀ i (h : i < ob.buy.length)
      (h2 : i < (BittrexNormalized.get_market_orders ob).bids.length),
      (BittrexNormalized.get_market_orders ob).bids.get ⟨i, h2⟩ =
        [(ob.buy.get ⟨i, h⟩).Rate, (ob.buy.get ⟨i, h⟩).Quantity]) ∧
    (∀ i (h : i < ob.sell.length)
      (h2 : i < (BittrexNormalized.get_market_orders ob).asks.length),
      (BittrexNormalized.get_market_orders ob).asks.get ⟨i, h2⟩ =
        [(ob.sell.get ⟨i, h⟩).Rate, (ob.sell.get ⟨i, h⟩).Quantity]) := by
  refine ⟨by simp [BittrexNormalized.get_market_orders],
          by simp [BittrexNormalized.get_market_orders], ?_, ?_⟩
  · intro i h h2
    simp [BittrexNormalized.get_market_orders]
  · intro i h h2
    simp [BittrexNormalized.get_market_orders]

/-- Witness for C6 on a one-level book. -/
theorem order_book_normalization_spec_witness :
    (BittrexNormalized.get_market_orders
      (⟨[⟨10, 2⟩], [⟨11, 3⟩]⟩ : Bittrex.OrderBookRaw Nat)).bids.get
        ⟨0, by decide⟩ = [10, 2] :=
  (order_book_normalization_spec Nat ⟨[⟨10, 2⟩], [⟨11, 3⟩]⟩).2.2.1 0
    (by decide) (by decide)

/-- Claim C7: get_balances returns exactly the balance entries with strictly
positive Balance, in their original order and unchanged. -/
theorem balances_positive_filter_spec (l : List Bittrex.BalanceEntry) :
    Bittrex.get_balances l = l.filter (fun b => 0 < b.Balance) ∧
    (Bittrex.get_balances l).Sublist l ∧
    (∀ b, b ∈ Bittrex.get_balances l → 0 < b.Balance) ∧
    (∀ b, b ∈ l → 0 < b.Balance → b ∈ Bittrex.get_balances l) := by
  have hf : Bittrex.get_balances l = l.filter (fun b => 0 < b.Balance) := by
    induction l with
    | nil => rfl
    | cons b rest ih =>
        rw [Bittrex.get_balances, List.filter_cons]
        cases hb : decide (0 < b.Balance) with
        | true =>
            rw [if_pos (of_decide_eq_true hb)]
            simp [hb, ih]
        | false =>
            rw [if_neg (of_decide_eq_false hb)]
            simp [hb, ih]
  refine ⟨hf, ?_, ?_, ?_⟩
  · rw [hf]; exact List.filter_sublist l
  · intro b hb
    rw [hf] at hb
    simpa using (List.of_mem_filter hb)
  · intro b hb hpos
    rw [hf]
    exact List.mem_filter.mpr ⟨hb, by simpa using hpos⟩

/-- Witness for C7 at the example balance list (only ETH is kept). -/
theorem balances_positive_filter_spec_witness :
    (⟨"ETH".data, 3 / 2⟩ : Bittrex.BalanceEntry) ∈
      Bittrex.get_balances [⟨"BTC".data, 0⟩, ⟨"ETH".data, 3 / 2⟩] :=
  (balances_positive_filter_spec [⟨"BTC".data, 0⟩, ⟨"ETH".data, 3 / 2⟩]).2.2.2
    ⟨"ETH".data, 3 / 2⟩ (by simp) (by norm_num)

/-- Claim C8: verification raises APIError carrying the message field exactly
when the success field is not the boolean true; when it is true, the api call
returns the body unchanged. -/
theorem verify_response_spec (α : Type) (r : RespBody α) :
    (Bittrex.verify_response r = Except.error r.message ↔
      r.success ≠ PyVal.bool true) ∧
    (Bittrex.verify_response r = Except.ok () ↔ r.success = PyVal.bool true) ∧
    (∀ m, Bittrex.verify_response r = Except.error m → m = r.message) ∧
    (r.success = PyVal.bool true → Bittrex.api r = Except.ok r) := by
  by_cases h : r.success = PyVal.bool true
  · refine ⟨?_, ?_, ?_, ?_⟩
    · simp [Bittrex.verify_response, h]
    · simp [Bittrex.verify_response, h]
    · intro m hm
      simp [Bittrex.verify_response, h] at hm
    · intro _
      simp [Bittrex.api, Bittrex.verify_response, h]
  · refine ⟨?_, ?_, ?_, ?_⟩
    · simp [Bittrex.verify_response, h]
    · simp [Bittrex.verify_response, h]
    · intro m hm
      simp [Bittrex.verify_response, h] at hm
      exact hm.symm
    · intro hc
      exact absurd hc h

/-- Witness for C8 at a successful body. -/
theorem verify_response_spec_witness :
    Bittrex.api (⟨PyVal.bool true, "msg".data, 7⟩ : RespBody Nat) =
      Except.ok ⟨PyVal.bool true, "msg".data, 7⟩ :=
  (verify_response_spec Nat ⟨PyVal.bool true, "msg".data, 7⟩).2.2.2 rfl

/-- Claim C9: requesting trade history with depth 0 returns the entire venue
trade list (the Python slice with index -0 is the whole list), after one
network call. -/
theorem trade_history_depth_zero_returns_all (τ : Type) (venue : List τ) :
    Bittrex.get_market_trade_history 0 venue = (Except.ok venue, 1) := by
  simp [Bittrex.get_market_trade_history, Bittrex.pySliceFrom]

/-- Claim C10: the non-normalized Bittrex.format_pair is total: on every
string it returns the lowercased string with underscores replaced by the
delimiter, with no delimiter or base-currency validation; the normalized
variant is the one that rejects, as the concrete contrast shows. -/
theorem format_pair_total_spec (s : Str) :
    Bittrex.format_pair s = pyLower (pyReplaceChar '_' Bittrex.delimiter s) ∧
    Bittrex.format_pair "btcusd".data = "btcusd".data ∧
    BittrexNormalized.format_pair "btcusd".data =
      Except.error PairError.invalidDelimiter :=
  ⟨format_pair_eq_lower_replace s, by decide, rfl⟩

end Cryptotik
